import Mathlib

/-!
Verification of the CLI Bridge & PTY Session Manager core of the
`claude-code-gui` repository, shallowly embedded in Lean 4.

The embedding follows the TypeScript sources:
* the pty-bridge module (path validation, file handlers, `shellEscape`,
  `buildUserPath`, `getClaudePath`, the `pty:*` IPC handlers, the
  activity scanner), and
* the cli-bridge module (`buildUserPath`, `getClaudePath`, `spawnClaude`,
  the `cli:*` IPC handlers).

Strings are modelled as Lean `String` / `List Char`; the event-driven
parts (process output, timers) are modelled as folds over explicit event
traces; filesystem and process state are passed explicitly.
-/

namespace ClaudeCodeGui

/-! ## Shell escaping (pty-bridge `shellEscape`, POSIX branch)

Source: if the argument matches the anchored regex whose class is the
letters, digits, dot, underscore, hyphen, slash and equals sign, it is
returned unchanged; otherwise it is wrapped in single quotes with every
embedded single quote replaced by quote-backslash-quote-quote.
The identical routine appears inline in the cli-bridge fallback
(`cmdParts` in `spawnClaude`). -/

/-- The character class (letters, digits, `.`, `_`, hyphen, slash, `=`) of
the POSIX-branch pass-through regex in `shellEscape`. -/
def posixSafeChar (c : Char) : Bool :=
  ('a' ≤ c && c ≤ 'z') || ('A' ≤ c && c ≤ 'Z') || ('0' ≤ c && c ≤ '9') ||
  c = '.' || c = '_' || c = '-' || c = '/' || c = '='

/-- The anchored one-or-more regex test on the safe class: nonempty and
every character in the class. -/
def posixSafe (s : List Char) : Bool :=
  !s.isEmpty && s.all posixSafeChar

/-- `arg.replace(/'/g, "'\\''")`: each single quote becomes the four
characters `'\''`; every other character is kept. -/
def escBody : List Char → List Char
  | [] => []
  | c :: rest =>
      (if c = '\'' then ['\'', '\\', '\'', '\''] else [c]) ++ escBody rest

/-- The POSIX branch of `shellEscape` (pty-bridge), also the inline
escaper of the cli-bridge shell fallback. -/
def shellEscape (s : List Char) : List Char :=
  if posixSafe s then s else '\'' :: (escBody s ++ ['\''])

/-! ## A model of POSIX shell word recognition

`shWords input inQuote cur acc` walks the input with POSIX single-quote
semantics: outside quotes, `'` opens a quoted span, `\` makes the next
character literal, and a space ends the current word; inside a quoted
span every character except `'` is literal.  Characters that would
trigger an expansion or control construct we do not model (`$`, `` ` ``,
`"`, globs, redirections, …) make the parse fail, so the model never
silently misreads them.  An unterminated quote or trailing backslash
also fails. -/

/-- Unquoted characters whose shell meaning (expansion, globbing, control
operators, field splitting beyond space) is outside this model.
`Char.ofNat 96` is the backquote. -/
def shUnmodeledChars : List Char :=
  ['"', '$', Char.ofNat 96, '*', '?', '[', ']', '~', '#', '!',
   '\x7b', '\x7d', '(', ')', '<', '>', ';', '&', '|', '\n', '\t', '\r']

def shUnmodeled (c : Char) : Bool :=
  decide (c ∈ shUnmodeledChars)

/-- Word recognizer for the modelled POSIX subset.  `cur = none` means no
word has started at this position; quoting always starts a word (so `''`
yields one empty word). -/
def shWords : List Char → Bool → Option (List Char) → List (List Char) →
    Option (List (List Char))
  | [], true, _, _ => none
  | [], false, none, acc => some acc
  | [], false, some w, acc => some (acc ++ [w])
  | c :: rest, true, cur, acc =>
      if c = '\'' then shWords rest false (some (cur.getD [])) acc
      else shWords rest true (some (cur.getD [] ++ [c])) acc
  | c :: rest, false, cur, acc =>
      if c = '\'' then shWords rest true (some (cur.getD [])) acc
      else if c = '\\' then
        match rest with
        | [] => none
        | d :: rest2 => shWords rest2 false (some (cur.getD [] ++ [d])) acc
      else if c = ' ' then
        shWords rest false none
          (acc ++ (match cur with | some w => [w] | none => []))
      else if shUnmodeled c then none
      else shWords rest false (some (cur.getD [] ++ [c])) acc

/-- Parse a full command-word list from a character stream. -/
def shParse (s : List Char) : Option (List (List Char)) :=
  shWords s false none []

/-! ## String utilities

Kernel-computable models of the JS string operations the bridge uses. -/

/-- JS `a.startsWith(b)`. -/
def jsStartsWith (a b : String) : Bool :=
  b.data.isPrefixOf a.data

/-- POSIX `path.join` of two segments. -/
def pj (a b : String) : String :=
  a ++ "/" ++ b

/-- JS `String.prototype.trim`: strip whitespace from both ends. -/
def jsTrim (s : String) : String :=
  String.mk (((s.data.dropWhile Char.isWhitespace).reverse.dropWhile Char.isWhitespace).reverse)

/-- JS `s.split(sep)` for a one-character separator; always nonempty,
`""` splits to `[""]`. -/
def splitOnChar (sep : Char) : List Char → List (List Char)
  | [] => [[]]
  | c :: rest =>
      let r := splitOnChar sep rest
      if c = sep then [] :: r
      else (c :: r.headD []) :: r.tail

/-- The characters after the last dot of a list, if any. -/
def lastDotSuffix : List Char → Option (List Char)
  | [] => none
  | c :: rest =>
      match lastDotSuffix rest with
      | some s => some s
      | none => if c = '.' then some rest else none

/-- Model of `path.extname` on base names: `".ext"` for a final dot-suffix,
`""` when there is no dot or only the leading dot of a dotfile. -/
def extname (name : String) : String :=
  match name.data with
  | [] => ""
  | _ :: rest =>
      match lastDotSuffix rest with
      | some s => "." ++ String.mk s
      | none => ""

/-! ## Path validation (pty-bridge file module, `validatePath`)

Source: resolve the input, then allow exactly the resolved paths that are
the home directory, under `home + sep`, the temp directory, under
`tmp + sep`, or (non-Windows) `/tmp` or under `/tmp/`; otherwise throw
`Access denied`.  The throw is modelled as `none`. -/

structure PathEnv where
  /-- `path.resolve`. -/
  resolve : String → String
  /-- `path.dirname`. -/
  dirname : String → String
  home : String
  tmp : String
  sep : String
  isWin : Bool

/-- The allow condition of `validatePath`, applied to the resolved path,
in source order. -/
def allowedPath (E : PathEnv) (r : String) : Bool :=
  r = E.home || jsStartsWith r (E.home ++ E.sep) ||
  r = E.tmp || jsStartsWith r (E.tmp ++ E.sep) ||
  (!E.isWin && (jsStartsWith r "/tmp/" || r = "/tmp"))

/-- The `Access denied` message thrown by `validatePath`. -/
def accessDeniedMsg (E : PathEnv) (inputPath : String) : String :=
  "Access denied: path \"" ++ E.resolve inputPath ++
    "\" is outside allowed directories (home: " ++ E.home ++ ", tmp: " ++ E.tmp ++ ")"

/-- `validatePath`: `some resolved` when allowed, `none` for the throw. -/
def validatePath (E : PathEnv) (inputPath : String) : Option String :=
  let resolved := E.resolve inputPath
  if allowedPath E resolved then some resolved else none

/-! ## File handlers (`fs:read` / `fs:write` / `fs:exists` / `fs:list-dir` /
`fs:delete`)

Each handler is modelled as a pure function of a `FileState` returning its
IPC result value together with the list of filesystem syscalls it performs,
in order.  The `try/catch` of each handler turns the `validatePath` throw
into the handler's error result. -/

/-- Filesystem syscalls the handlers can issue. -/
inductive Syscall
  | statExists (p : String)
  | readFile (p : String)
  | writeFile (p : String)
  | mkdir (p : String)
  | readdir (p : String)
  | statFile (p : String)
  | unlink (p : String)
  deriving DecidableEq, Repr

/-- A snapshot of the filesystem as the `fs` module views it. -/
structure FileState where
  existsSync : String → Bool
  contentOf : String → String
  entriesOf : String → List String
  isDir : String → Bool
  isFile : String → Bool
  sizeOf : String → Nat
  mtimeOf : String → Int

structure FsReadResult where
  «exists» : Bool
  content : Option String
  error : Option String
  deriving DecidableEq, Repr

structure FsWriteResult where
  success : Bool
  error : Option String
  deriving DecidableEq, Repr

structure DirEntry where
  name : String
  path : String
  isDirectory : Bool
  isFile : Bool
  size : Nat
  modified : Int
  ext : String
  deriving DecidableEq, Repr

structure FsListResult where
  «exists» : Bool
  entries : List DirEntry
  error : Option String
  deriving DecidableEq, Repr

/-- `fs:read`. -/
def fsRead (E : PathEnv) (fs : FileState) (filePath : String) :
    FsReadResult × List Syscall :=
  match validatePath E filePath with
  | none => ({ «exists» := false, content := none, error := some (accessDeniedMsg E filePath) }, [])
  | some safePath =>
      if fs.existsSync safePath then
        ({ «exists» := true, content := some (fs.contentOf safePath), error := none },
         [.statExists safePath, .readFile safePath])
      else
        ({ «exists» := false, content := none, error := none }, [.statExists safePath])

/-- `fs:write`. -/
def fsWrite (E : PathEnv) (fs : FileState) (filePath _content : String) :
    FsWriteResult × List Syscall :=
  match validatePath E filePath with
  | none => ({ success := false, error := some (accessDeniedMsg E filePath) }, [])
  | some safePath =>
      let dir := E.dirname safePath
      if fs.existsSync dir then
        ({ success := true, error := none }, [.statExists dir, .writeFile safePath])
      else
        ({ success := true, error := none }, [.statExists dir, .mkdir dir, .writeFile safePath])

/-- `fs:exists`; the catch branch returns plain `false`. -/
def fsExists (E : PathEnv) (fs : FileState) (filePath : String) :
    Bool × List Syscall :=
  match validatePath E filePath with
  | none => (false, [])
  | some safePath => (fs.existsSync safePath, [.statExists safePath])

/-- `fs:list-dir`. -/
def fsListDir (E : PathEnv) (fs : FileState) (dirPath : String) :
    FsListResult × List Syscall :=
  match validatePath E dirPath with
  | none => ({ «exists» := false, entries := [], error := some (accessDeniedMsg E dirPath) }, [])
  | some safePath =>
      if fs.existsSync safePath then
        let names := fs.entriesOf safePath
        ({ «exists» := true,
           entries := names.map (fun name =>
             let fullPath := safePath ++ E.sep ++ name
             { name := name, path := fullPath, isDirectory := fs.isDir fullPath,
               isFile := fs.isFile fullPath, size := fs.sizeOf fullPath,
               modified := fs.mtimeOf fullPath, ext := extname name }),
           error := none },
         [.statExists safePath, .readdir safePath] ++
           names.map (fun n => .statFile (safePath ++ E.sep ++ n)))
      else
        ({ «exists» := false, entries := [], error := none }, [.statExists safePath])

/-- `fs:delete`. -/
def fsDelete (E : PathEnv) (fs : FileState) (filePath : String) :
    FsWriteResult × List Syscall :=
  match validatePath E filePath with
  | none => ({ success := false, error := some (accessDeniedMsg E filePath) }, [])
  | some safePath =>
      if fs.existsSync safePath then
        ({ success := true, error := none }, [.statExists safePath, .unlink safePath])
      else
        ({ success := true, error := none }, [.statExists safePath])

/-! ## Environment builder (`buildUserPath`, non-Windows branch)

The pty-bridge version concatenates the fixed install directories, the
newest nvm version directory, the cached login-shell PATH and the
inherited PATH, drops empty entries (`filter(Boolean)`) and joins with the
platform delimiter.  The cli-bridge version has no login-shell probe, no
empty-entry filter, and defaults the inherited PATH. -/

/-- JS `array.join(sep)`. -/
def joinSep (sep : String) : List String → String
  | [] => ""
  | [x] => x
  | x :: y :: rest => x ++ sep ++ joinSep sep (y :: rest)

/-- Ascending insertion sort on strings, modelling JS `Array.sort()` on
ASCII directory names. -/
def insertAsc (x : String) : List String → List String
  | [] => [x]
  | y :: rest => if x ≤ y then x :: y :: rest else y :: insertAsc x rest

def sortAsc : List String → List String
  | [] => []
  | x :: rest => insertAsc x (sortAsc rest)

/-- `versions.sort().reverse()[0]`. -/
def latestVersion (vs : List String) : Option String :=
  (sortAsc vs).reverse.head?

structure PtyPathInput where
  home : String
  /-- `readdirSync` of the nvm versions directory; `none` when it does not
  exist or reading it threw. -/
  nvmVersions : Option (List String)
  /-- The cached login-shell PATH probe result; `""` when the probe failed. -/
  loginPath : String
  /-- `process.env.PATH || ''`. -/
  systemPath : String

/-- The fixed install directories plus the nvm entry (pty-bridge,
non-Windows). -/
def extraPathsPty (i : PtyPathInput) : List String :=
  [pj i.home ".npm-global/bin", pj i.home ".local/bin", pj i.home ".bun/bin",
   "/usr/local/bin", "/opt/homebrew/bin", pj i.home ".cargo/bin"] ++
  (match i.nvmVersions with
   | some vs =>
       match latestVersion vs with
       | some latest => [pj (pj (pj i.home ".nvm/versions/node") latest) "bin"]
       | none => []
   | none => [])

/-- The entry list of the pty-bridge `buildUserPath` after
`filter(Boolean)`. -/
def pathComponentsPty (i : PtyPathInput) : List String :=
  (extraPathsPty i ++ [i.loginPath, i.systemPath]).filter (fun p => p ≠ "")

/-- pty-bridge `buildUserPath` (non-Windows). -/
def buildUserPathPty (i : PtyPathInput) : String :=
  joinSep ":" (pathComponentsPty i)

structure CliPathInput where
  home : String
  nvmVersions : Option (List String)
  /-- `process.env.PATH`; `none` when unset. -/
  envPath : Option String

def extraPathsCli (i : CliPathInput) : List String :=
  [pj i.home ".npm-global/bin", pj i.home ".local/bin", pj i.home ".bun/bin",
   "/usr/local/bin", "/opt/homebrew/bin", pj i.home ".cargo/bin"] ++
  (match i.nvmVersions with
   | some vs =>
       match latestVersion vs with
       | some latest => [pj (pj (pj i.home ".nvm/versions/node") latest) "bin"]
       | none => []
   | none => [])

/-- cli-bridge `buildUserPath`: `[...extraPaths, systemPath].join(':')`,
where `systemPath = process.env.PATH || '/usr/bin:/bin'`. -/
def buildUserPathCli (i : CliPathInput) : String :=
  let systemPath :=
    match i.envPath with
    | some p => if p = "" then "/usr/bin:/bin" else p
    | none => "/usr/bin:/bin"
  joinSep ":" (extraPathsCli i ++ [systemPath])

/-- First-occurrence de-duplication — the operation the spec claims the
builder performs on its entries.  Modelled from the spec: "Entries are
concatenated and de-duplicated preserving first occurrence." -/
def dedupFirst (seen : List String) : List String → List String
  | [] => []
  | x :: rest =>
      if seen.contains x then dedupFirst seen rest
      else x :: dedupFirst (x :: seen) rest

/-- The spec's version of the pty-bridge path builder: same entries,
de-duplicated preserving first occurrence.  Modelled from the spec for
comparison with `buildUserPathPty`. -/
def buildUserPathPtySpec (i : PtyPathInput) : String :=
  joinSep ":" (dedupFirst [] (pathComponentsPty i))

/-! ## Binary resolver (`getClaudePath`, non-Windows branch)

Probe an ordered candidate list with `existsSync`; on failure run
`which claude` under the enriched PATH; on failure return `"claude"`.
The pty-bridge takes the first line of the trimmed `which` output, the
cli-bridge returns the whole trimmed output. -/

structure ResolveInput where
  home : String
  existsSync : String → Bool
  /-- stdout of `which claude` under the enriched PATH; `none` when the
  command failed. -/
  whichOutput : Option String

/-- The ordered candidate list (identical in both bridges, non-Windows). -/
def claudeCandidates (home : String) : List String :=
  [pj home ".npm-global/bin/claude", "/usr/local/bin/claude",
   pj home ".local/bin/claude", pj home ".bun/bin/claude",
   "/opt/homebrew/bin/claude"]

/-- First line of a string, JS `s.split(sep)[0]` style. -/
def firstLine (s : String) : String :=
  String.mk ((splitOnChar '\n' s.data).headD [])

/-- pty-bridge `getClaudePath` (non-Windows): candidates, then
`which` output trimmed and split at the first newline, then `"claude"`. -/
def getClaudePathPty (i : ResolveInput) : String :=
  match (claudeCandidates i.home).find? i.existsSync with
  | some c => c
  | none =>
      match i.whichOutput with
      | some out => firstLine (jsTrim out)
      | none => "claude"

/-- cli-bridge `getClaudePath`: candidates, then the whole trimmed `which`
output, then `"claude"`. -/
def getClaudePathCli (i : ResolveInput) : String :=
  match (claudeCandidates i.home).find? i.existsSync with
  | some c => c
  | none =>
      match i.whichOutput with
      | some out => jsTrim out
      | none => "claude"

/-- The resolution chain in the spec's words ("return the first [existing
path] in the ... candidate list"; "return the first line of the ...
command"; "return the bare executable name").  Modelled from the spec for
comparison with the two implementations. -/
def resolveChainSpec (i : ResolveInput) : String :=
  match ((claudeCandidates i.home).filter i.existsSync).head? with
  | some c => c
  | none =>
      match i.whichOutput with
      | some out => firstLine (jsTrim out)
      | none => "claude"

/-! ## PTY session manager (`pty:*` handlers, non-Windows branch)

The handler registry `sessions : Map<string, PtySession>` is modelled as
an association list (at most one entry per id — ids are generated from a
monotonic counter and never reused).  `pty.spawn` attempts and the
process-facing effects of `write`/`resize`/`kill` are returned as
explicit lists. -/

def ALLOWED_MODELS : List String :=
  ["opus", "sonnet", "haiku",
   "claude-3-opus", "claude-3-sonnet", "claude-3-haiku",
   "claude-sonnet-4-5-20250929", "claude-opus-4-6"]

/-- JS truthiness of an optional string (`undefined` and `""` are falsy). -/
def truthy : Option String → Bool
  | some s => s ≠ ""
  | none => false

/-- `x || dflt` for an optional string, with JS falsiness of `""`. -/
def jsOrElse (x : Option String) (dflt : String) : String :=
  match x with
  | some s => if s = "" then dflt else s
  | none => dflt

structure PtySession where
  model : String
  cwd : String
  startTime : Nat
  deriving DecidableEq, Repr

structure SpawnOptions where
  cwd : Option String := none
  model : Option String := none
  args : Option (List String) := none
  /-- truthiness of `options.shell`. -/
  shell : Bool := false

structure PtyEnv where
  /-- `homedir()`. -/
  homedir : String
  /-- the `claudePath` resolved once at handler registration. -/
  claudePath : String
  /-- `process.env.SHELL || '/bin/zsh'`. -/
  shellBin : String
  /-- module-level `counter` before this call. -/
  counter : Nat
  /-- `Date.now()`. -/
  now : Nat
  /-- `some msg` when `pty.spawn` throws with message `msg`. -/
  spawnError : Option String
  /-- the pid a successful `pty.spawn` assigns. -/
  pid : Nat

abbrev Registry := List (String × PtySession)

def regGet (reg : Registry) (id : String) : Option PtySession :=
  (reg.find? (fun p => p.1 = id)).map (fun p => p.2)

def regErase (reg : Registry) (id : String) : Registry :=
  reg.filter (fun p => p.1 ≠ id)

inductive SpawnResult
  | ok (id : String) (pid : Nat)
  | err (msg : String)
  deriving DecidableEq, Repr

/-- One `pty.spawn` invocation: the executable and its argv. -/
structure SpawnCall where
  file : String
  argv : List String
  deriving DecidableEq, Repr

def invalidModelMsg (m : String) : String :=
  "Invalid model: \"" ++ m ++ "\". Allowed: " ++ joinSep ", " ALLOWED_MODELS

/-- String-level `shellEscape`. -/
def shellEscapeStr (s : String) : String :=
  String.mk (shellEscape s.data)

/-- The `claudeArgs` construction of the non-interactive branch, with its
early `Invalid model` return.  The model block runs only when
`options.model` is truthy; `options.args` is appended whenever present
(arrays are always truthy in JS). -/
def ptySpawnCmd (E : PtyEnv) (opts : SpawnOptions) : Except String (List String) :=
  match opts.model with
  | some m =>
      if m = "" then .ok (E.claudePath :: opts.args.getD [])
      else if ALLOWED_MODELS.contains m then
        .ok (E.claudePath :: "--model" :: m :: opts.args.getD [])
      else .error (invalidModelMsg m)
  | none => .ok (E.claudePath :: opts.args.getD [])

/-- The `pty:spawn` handler (non-Windows branch): id generation, cwd
defaulting, model validation, shell-escaped command construction, the
`pty.spawn` attempt and session registration.  Returns the IPC result,
the updated registry and the `pty.spawn` calls attempted, in order. -/
def ptySpawn (E : PtyEnv) (opts : SpawnOptions) (reg : Registry) :
    SpawnResult × Registry × List SpawnCall :=
  let id := "pty-" ++ toString (E.counter + 1) ++ "-" ++ toString E.now
  let cwd := jsOrElse opts.cwd E.homedir
  let shellArgsE : Except String (List String) :=
    if opts.shell then .ok ["-l"]
    else (ptySpawnCmd E opts).map (fun claudeArgs =>
      ["-l", "-c", joinSep " " (claudeArgs.map shellEscapeStr)])
  match shellArgsE with
  | .error msg => (.err msg, reg, [])
  | .ok shellArgs =>
      match E.spawnError with
      | some msg => (.err msg, reg, [⟨E.shellBin, shellArgs⟩])
      | none =>
          let session : PtySession :=
            { model := jsOrElse opts.model "default", cwd := cwd, startTime := E.now }
          (.ok id E.pid, (id, session) :: reg, [⟨E.shellBin, shellArgs⟩])

/-- Process-facing effects of the write/resize/kill handlers. -/
inductive PtyEffect
  | write (id : String) (data : String)
  | resize (id : String) (cols rows : Nat)
  | kill (id : String)
  deriving DecidableEq, Repr

/-- `pty:write`: forward data if the session exists, silently do nothing
otherwise. -/
def ptyWrite (reg : Registry) (id : String) (data : String) :
    Registry × List PtyEffect :=
  match regGet reg id with
  | some _ => (reg, [.write id data])
  | none => (reg, [])

/-- `pty:resize`: resize if the session exists (resize errors are swallowed
by its `try/catch`), do nothing otherwise. -/
def ptyResize (reg : Registry) (id : String) (cols rows : Nat) :
    Registry × List PtyEffect :=
  match regGet reg id with
  | some _ => (reg, [.resize id cols rows])
  | none => (reg, [])

/-- `pty:kill`: kill the process and delete the registry entry if the
session exists, do nothing otherwise. -/
def ptyKill (reg : Registry) (id : String) :
    Registry × List PtyEffect :=
  match regGet reg id with
  | some _ => (regErase reg id, [.kill id])
  | none => (reg, [])

/-! ## One-shot executor (cli-bridge `spawnClaude`)

The promise body reacts to stdout/stderr chunks, the timeout timer, the
`close` event and the `error` event; the first resolving event wins.
Modelled as a fold over an explicit event trace. -/

inductive ProcEvent
  | out (data : String)
  | err (data : String)
  | close (code : Option Int)
  | procError (msg : String)
  | timeoutFire
  deriving DecidableEq, Repr

/-- Whether an event is an output chunk (non-resolving). -/
def ProcEvent.isChunk : ProcEvent → Bool
  | .out _ => true
  | .err _ => true
  | _ => false

structure SpawnOutcome where
  code : Option Int
  stdout : String
  stderr : String
  deriving DecidableEq, Repr

inductive Signal
  | sigterm
  deriving DecidableEq, Repr

/-- The synthesized timeout message.  (JS prints `timeout / 1000` as a
float; every call-site timeout is a whole number of seconds, so integer
division is exact there.) -/
def timeoutMsg (timeoutMs : Nat) : String :=
  "Timeout after " ++ toString (timeoutMs / 1000) ++ "s"

/-- `options.timeout || 60000`. -/
def effTimeout (t : Option Nat) : Nat :=
  match t with
  | some n => if n = 0 then 60000 else n
  | none => 60000

/-- Replay a `spawnClaude` event trace with the given accumulated output.
The result is the resolved promise value together with the signal sent
(`some .sigterm` exactly when the timer fired first); `none` when the
trace resolves nothing. -/
def runSpawn (timeoutMs : Nat) (stdout stderr : String) :
    List ProcEvent → Option (SpawnOutcome × Option Signal)
  | [] => none
  | .out d :: rest => runSpawn timeoutMs (stdout ++ d) stderr rest
  | .err d :: rest => runSpawn timeoutMs stdout (stderr ++ d) rest
  | .timeoutFire :: _ =>
      some ({ code := some (-1), stdout := stdout,
              stderr := if stderr = "" then timeoutMsg timeoutMs else stderr },
            some .sigterm)
  | .close c :: _ => some ({ code := c, stdout := stdout, stderr := stderr }, none)
  | .procError m :: _ =>
      some ({ code := some (-1), stdout := "", stderr := m }, none)

/-- All stdout emitted by a trace prefix, in order. -/
def collectOut : List ProcEvent → String
  | [] => ""
  | .out d :: rest => d ++ collectOut rest
  | _ :: rest => collectOut rest

/-- All stderr emitted by a trace prefix, in order. -/
def collectErr : List ProcEvent → String
  | [] => ""
  | .err d :: rest => d ++ collectErr rest
  | _ :: rest => collectErr rest

/-! ## Working-directory defaults (C5 call sites) -/

/-- The cwd used by `spawnClaude`: `options.cwd || homedir()` — the source
comment reads "NEVER use process.cwd()". -/
def spawnClaudeCwd (optCwd : Option String) (homedir : String) : String :=
  jsOrElse optCwd homedir

/-- The cwd used by the `pty:spawn` handler: `options.cwd || homedir()`. -/
def ptySpawnCwd (optCwd : Option String) (homedir : String) : String :=
  jsOrElse optCwd homedir

/-- The cwd recorded by the `cli:start-session` handler:
`options.cwd || process.cwd()`. -/
def startSessionCwd (optCwd : Option String) (processCwd : String) : String :=
  jsOrElse optCwd processCwd

/-! ## Activity scanner (`fs:scan-activity`)

The filesystem is modelled as a forest of named nodes; `scanDir`'s entry
loop walks it with the seen-set, noise pruning, the depth cap and the
modification-time filter, and the handler sorts the collected results by
modification time descending. -/

inductive FSNode
  | file (name : String) (size : Nat) (mtime : Int)
  | dir (name : String) (children : List FSNode)
  deriving Repr

def FSNode.name : FSNode → String
  | .file n _ _ => n
  | .dir n _ => n

inductive ActivityLocation
  | project | scratchpad | claudeConfig | other
  deriving DecidableEq, Repr

structure ActivityFile where
  name : String
  path : String
  relativePath : String
  size : Nat
  modified : Int
  ext : String
  location : ActivityLocation
  deriving DecidableEq, Repr

/-- The skip list: `node_modules`, `.git`, `.DS_Store`, `__pycache__`. -/
def noiseName (n : String) : Bool :=
  n = "node_modules" || n = ".git" || n = ".DS_Store" || n = "__pycache__"

structure ScanState where
  seen : List String
  results : List ActivityFile

structure ScanParams where
  projectDir : String
  home : String
  sinceMs : Int
  maxDepth : Nat

/-- The scanner's relative-path display: relative to the project directory
when under it, `~/`-relative when under home, else the absolute path
(`path.relative` modelled as prefix dropping). -/
def relDisplay (projectDir home fullPath : String) : String :=
  if jsStartsWith fullPath projectDir then
    String.mk (fullPath.data.drop (projectDir.data.length + 1))
  else if jsStartsWith fullPath home then
    "~/" ++ String.mk (fullPath.data.drop (home.data.length + 1))
  else fullPath

/-- `extname(name).slice(1).toLowerCase()`. -/
def scanExt (name : String) : String :=
  String.mk (((extname name).data.drop 1).map Char.toLower)

def mkActivityFile (P : ScanParams) (loc : ActivityLocation) (name fullPath : String)
    (size : Nat) (mtime : Int) : ActivityFile :=
  { name := name, path := fullPath,
    relativePath := relDisplay P.projectDir P.home fullPath,
    size := size, modified := mtime, ext := scanExt name, location := loc }

mutual

/-- The per-entry body of `scanDir`'s loop: skip noise names, skip
already-seen paths, then recurse into a subdirectory while the depth cap
allows, or record a file with `mtimeMs >= sinceMs`. -/
def scanNode (P : ScanParams) (loc : ActivityLocation) (e : FSNode)
    (dirPath : String) (depth : Nat) (st : ScanState) : ScanState :=
  if noiseName e.name then st
  else
    let fullPath := pj dirPath e.name
    if st.seen.contains fullPath then st
    else
      let st' : ScanState := ⟨fullPath :: st.seen, st.results⟩
      match e with
      | .dir _ children =>
          if P.maxDepth < depth + 1 then st'
          else scanKids P loc children fullPath (depth + 1) st'
      | .file n size mtime =>
          if P.sinceMs ≤ mtime then
            ⟨st'.seen, st'.results ++ [mkActivityFile P loc n fullPath size mtime]⟩
          else st'

/-- The entry loop of `scanDir` over a directory listing, left to right. -/
def scanKids (P : ScanParams) (loc : ActivityLocation) (l : List FSNode)
    (dirPath : String) (depth : Nat) (st : ScanState) : ScanState :=
  match l with
  | [] => st
  | e :: rest =>
      scanKids P loc rest dirPath depth (scanNode P loc e dirPath depth st)

end

/-- Insertion step of `results.sort((a, b) => b.modified - a.modified)`. -/
def insertByModified (f : ActivityFile) : List ActivityFile → List ActivityFile
  | [] => [f]
  | g :: rest =>
      if g.modified ≤ f.modified then f :: g :: rest
      else g :: insertByModified f rest

/-- Sort by modification time descending (newest first). -/
def sortByModifiedDesc : List ActivityFile → List ActivityFile
  | [] => []
  | f :: rest => insertByModified f (sortByModifiedDesc rest)

/-- The filesystem as the handler probes it. -/
structure ScanFS where
  /-- entries of `projectDir` when `existsSync(projectDir)`. -/
  projectChildren : Option (List FSNode)
  /-- the existing temp bases with their entries. -/
  tmpBases : List (String × List FSNode)
  /-- entries of `~/.claude/projects` when it exists. -/
  claudeProjects : Option (List FSNode)

/-- Stage 1: `scanDir(projectDir, 'project')` when the project directory
exists. -/
def scanProjectStage (P : ScanParams) (fs : ScanFS) (st : ScanState) : ScanState :=
  match fs.projectChildren with
  | some ch => scanKids P .project ch P.projectDir 0 st
  | none => st

/-- Stage 2: `scanDir(join(tmpBase, entry), 'scratchpad')` for every
`claude-*` entry of every existing temp base (a non-directory entry makes
`readdirSync` throw, which the surrounding catch swallows). -/
def scanScratchStage (P : ScanParams) (fs : ScanFS) (st : ScanState) : ScanState :=
  fs.tmpBases.foldl (fun st base =>
    base.2.foldl (fun st e =>
      if jsStartsWith e.name "claude-" then
        match e with
        | .dir n ch => scanKids P .scratchpad ch (pj base.1 n) 0 st
        | .file _ _ _ => st
      else st) st) st

/-- Stage 3: `scanDir(join(home, '.claude', 'projects'), 'claude-config')`
when that directory exists. -/
def scanConfigStage (P : ScanParams) (fs : ScanFS) (st : ScanState) : ScanState :=
  match fs.claudeProjects with
  | some ch => scanKids P .claudeConfig ch (pj (pj P.home ".claude") "projects") 0 st
  | none => st

/-- The `fs:scan-activity` handler: the three scan stages in order, then
sort by modification time descending. -/
def scanActivity (P : ScanParams) (fs : ScanFS) : List ActivityFile :=
  sortByModifiedDesc
    (scanConfigStage P fs (scanScratchStage P fs (scanProjectStage P fs ⟨[], []⟩))).results

/-! ## Concrete inputs for instantiating the theorems -/

/-- A concrete pty environment. -/
def egPtyEnv : PtyEnv :=
  { homedir := "/home/u", claudePath := "/usr/local/bin/claude",
    shellBin := "/bin/zsh", counter := 0, now := 1000,
    spawnError := none, pid := 42 }

/-- A concrete non-Windows path environment with identity resolution. -/
def egPathEnv : PathEnv :=
  { resolve := fun s => s, dirname := fun _ => "/", home := "/home/user",
    tmp := "/var/tmpdir", sep := "/", isWin := false }

/-- A concrete empty filesystem snapshot. -/
def egFileState : FileState :=
  { existsSync := fun _ => false, contentOf := fun _ => "",
    entriesOf := fun _ => [], isDir := fun _ => false, isFile := fun _ => false,
    sizeOf := fun _ => 0, mtimeOf := fun _ => 0 }

/-! ## Theorems -/

example : shParse (shellEscape "don't panic".data) = some ["don't panic".data] := by decide

example : shellEscape "a/b.c".data = "a/b.c".data := by decide

lemma posixSafeChar_props {c : Char} (h : posixSafeChar c = true) :
    c ≠ '\'' ∧ c ≠ '\\' ∧ c ≠ ' ' ∧ shUnmodeled c = false := by
  refine ⟨fun hc => ?_, fun hc => ?_, fun hc => ?_, ?_⟩
  · subst hc; exact absurd h (by decide)
  · subst hc; exact absurd h (by decide)
  · subst hc; exact absurd h (by decide)
  · cases hh : shUnmodeled c with
    | false => rfl
    | true =>
        unfold shUnmodeled at hh
        replace hh := of_decide_eq_true hh
        fin_cases hh <;> exact absurd h (by decide)

lemma shWords_quote_true (rest : List Char) (cur : List Char) (acc : List (List Char)) :
    shWords ('\'' :: rest) true (some cur) acc = shWords rest false (some cur) acc := by
  rw [shWords.eq_def]; simp

lemma shWords_char_true {c : Char} (hc : c ≠ '\'') (rest : List Char) (cur : List Char)
    (acc : List (List Char)) :
    shWords (c :: rest) true (some cur) acc = shWords rest true (some (cur ++ [c])) acc := by
  rw [shWords.eq_def]; simp [hc]

lemma shWords_quote_false (rest : List Char) (cur : Option (List Char)) (acc : List (List Char)) :
    shWords ('\'' :: rest) false cur acc = shWords rest true (some (cur.getD [])) acc := by
  rw [shWords.eq_def]; simp

lemma shWords_backslash (d : Char) (rest2 : List Char) (cur : Option (List Char))
    (acc : List (List Char)) :
    shWords ('\\' :: d :: rest2) false cur acc =
      shWords rest2 false (some (cur.getD [] ++ [d])) acc := by
  rw [shWords.eq_def]; simp

lemma shWords_plain {c : Char} (h1 : c ≠ '\'') (h2 : c ≠ '\\') (h3 : c ≠ ' ')
    (h4 : shUnmodeled c = false) (rest : List Char) (cur : Option (List Char))
    (acc : List (List Char)) :
    shWords (c :: rest) false cur acc = shWords rest false (some (cur.getD [] ++ [c])) acc := by
  rw [shWords.eq_def]; simp [h1, h2, h3, h4]

lemma shWords_done (w : List Char) (acc : List (List Char)) :
    shWords [] false (some w) acc = some (acc ++ [w]) := rfl

lemma shWords_escBody (s : List Char) (cur : List Char) (acc : List (List Char)) :
    shWords (escBody s ++ ['\'']) true (some cur) acc = some (acc ++ [cur ++ s]) := by
  induction s generalizing cur with
  | nil =>
      rw [escBody, List.nil_append, shWords_quote_true, shWords_done]
      simp
  | cons c rest ih =>
      by_cases hc : c = '\''
      · subst hc
        rw [escBody, if_pos rfl]
        simp only [List.cons_append, List.nil_append]
        rw [shWords_quote_true, shWords_backslash, shWords_quote_false]
        simp only [Option.getD_some]
        rw [ih (cur ++ ['\''])]
        simp
      · rw [escBody, if_neg hc]
        simp only [List.cons_append, List.nil_append]
        rw [shWords_char_true hc, ih (cur ++ [c])]
        simp

lemma shWords_safeRun (s : List Char) (hs : s.all posixSafeChar = true) (cur : List Char)
    (acc : List (List Char)) :
    shWords s false (some cur) acc = some (acc ++ [cur ++ s]) := by
  induction s generalizing cur with
  | nil => rw [shWords_done]; simp
  | cons c rest ih =>
      simp only [List.all_cons, Bool.and_eq_true] at hs
      obtain ⟨h1, h2, h3, h4⟩ := posixSafeChar_props hs.1
      rw [shWords_plain h1 h2 h3 h4]
      simp only [Option.getD_some]
      rw [ih hs.2 (cur ++ [c])]
      simp

/-- C3: Shell-escaping round-trip — for every argument string (in particular
one containing a single quote and a space), interpreting the output of
`shellEscape` under POSIX single-quote semantics (the non-Windows branch)
yields exactly one word, the original argument. -/
theorem shellEscape_roundtrip (s : List Char) :
    shParse (shellEscape s) = some [s] := by
  unfold shParse shellEscape
  by_cases h : posixSafe s = true
  · rw [if_pos h]
    unfold posixSafe at h
    cases s with
    | nil => simp at h
    | cons c rest =>
        simp only [List.isEmpty_cons, Bool.not_false, Bool.true_and, List.all_cons,
          Bool.and_eq_true] at h
        obtain ⟨h1, h2, h3, h4⟩ := posixSafeChar_props h.1
        rw [shWords_plain h1 h2 h3 h4]
        simp only [Option.getD_none, List.nil_append]
        rw [shWords_safeRun rest h.2 [c]]
        simp
  · rw [if_neg h]
    rw [shWords_quote_false]
    simp only [Option.getD_none]
    rw [shWords_escBody s []]
    simp

lemma find?_eq_filterHead {α : Type} (p : α → Bool) (l : List α) :
    l.find? p = (l.filter p).head? := by
  induction l with
  | nil => rfl
  | cons x rest ih =>
      by_cases h : p x
      · rw [List.find?_cons_of_pos _ h, List.filter_cons_of_pos h, List.head?_cons]
      · rw [List.find?_cons_of_neg _ h, List.filter_cons_of_neg h, ih]

/-- C2: for every path argument to `fs:read`, `fs:write`, `fs:exists`,
`fs:list-dir` and `fs:delete`, the handler first resolves the path and
checks containment in the home or temp directory; when the check fails it
performs no filesystem syscall on that path and returns its failure value
(error result, or `false` for `fs:exists`) instead of throwing. -/
theorem fileHandlers_fail_closed (E : PathEnv) (fs : FileState) (p c : String)
    (h : allowedPath E (E.resolve p) = false) :
    fsRead E fs p =
      ({ «exists» := false, content := none, error := some (accessDeniedMsg E p) }, []) ∧
    fsWrite E fs p c = ({ success := false, error := some (accessDeniedMsg E p) }, []) ∧
    fsExists E fs p = (false, []) ∧
    fsListDir E fs p =
      ({ «exists» := false, entries := [], error := some (accessDeniedMsg E p) }, []) ∧
    fsDelete E fs p = ({ success := false, error := some (accessDeniedMsg E p) }, []) := by
  have hv : validatePath E p = none := by simp [validatePath, h]
  refine ⟨?_, ?_, ?_, ?_, ?_⟩ <;>
    simp [fsRead, fsWrite, fsExists, fsListDir, fsDelete, hv]

theorem fileHandlers_fail_closed_witness :
    allowedPath egPathEnv (egPathEnv.resolve "/etc/passwd") = false ∧
    fsRead egPathEnv egFileState "/etc/passwd" =
      ({ «exists» := false, content := none,
         error := some (accessDeniedMsg egPathEnv "/etc/passwd") }, []) :=
  ⟨by decide,
   (fileHandlers_fail_closed egPathEnv egFileState "/etc/passwd" "x" (by decide)).1⟩

/-- C6 counterexample: with the login-shell PATH probe returning
`/usr/local/bin`, which is already among the fixed install directories,
the pty-bridge `buildUserPath` keeps both occurrences — it differs from
the de-duplicated result the claim describes. -/
theorem buildUserPath_dedup_cex :
    buildUserPathPty ⟨"/h", none, "/usr/local/bin", ""⟩ ≠
      buildUserPathPtySpec ⟨"/h", none, "/usr/local/bin", ""⟩ := by
  decide

/-- C6 (amended): the environment builder concatenates its sources in
order and drops empty entries, but performs no de-duplication: an entry
that is among the fixed install directories and also arrives as the
login-shell path occurs at least twice in the built component list, and
the result is the plain join of that list. -/
theorem buildUserPath_concat_no_dedup (i : PtyPathInput) (e : String)
    (he : e ∈ extraPathsPty i) (hl : i.loginPath = e) (hne : e ≠ "") :
    2 ≤ (pathComponentsPty i).count e ∧
    buildUserPathPty i = joinSep ":" (pathComponentsPty i) := by
  refine ⟨?_, rfl⟩
  unfold pathComponentsPty
  rw [List.filter_append, List.count_append]
  have h1 : 0 < ((extraPathsPty i).filter (fun p => p ≠ "")).count e := by
    rw [List.count_pos_iff]
    exact List.mem_filter.mpr ⟨he, by simp [hne]⟩
  have h2 : 0 < (([i.loginPath, i.systemPath]).filter (fun p => p ≠ "")).count e := by
    rw [List.count_pos_iff]
    subst hl
    exact List.mem_filter.mpr ⟨by simp, by simp [hne]⟩
  omega

theorem buildUserPath_concat_no_dedup_witness :
    "/usr/local/bin" ∈ extraPathsPty ⟨"/h", none, "/usr/local/bin", ""⟩ ∧
    2 ≤ (pathComponentsPty ⟨"/h", none, "/usr/local/bin", ""⟩).count "/usr/local/bin" :=
  ⟨by decide,
   (buildUserPath_concat_no_dedup ⟨"/h", none, "/usr/local/bin", ""⟩ "/usr/local/bin"
      (by decide) rfl (by decide)).1⟩

/-- C7 counterexample: when no candidate exists and the locate command
prints two lines, the cli-bridge resolver returns the whole trimmed
output, not the first line the claim prescribes. -/
theorem getClaudePathCli_firstLine_cex :
    getClaudePathCli ⟨"/h", fun _ => false, some "/a/claude\n/b/claude\n"⟩ ≠
      resolveChainSpec ⟨"/h", fun _ => false, some "/a/claude\n/b/claude\n"⟩ := by
  decide

/-- C7 (amended): both resolvers follow the chain — first existing
candidate, else the locate-command output, else the bare name `"claude"`;
the pty-bridge takes the first line of the trimmed output exactly as the
claim states, while the cli-bridge returns the whole trimmed output
(equal to the first line only when that output is a single line). -/
theorem getClaudePath_chain (i : ResolveInput) :
    getClaudePathPty i = resolveChainSpec i ∧
    getClaudePathCli i =
      (match ((claudeCandidates i.home).filter i.existsSync).head? with
       | some c => c
       | none =>
           match i.whichOutput with
           | some out => jsTrim out
           | none => "claude") := by
  constructor
  · unfold getClaudePathPty resolveChainSpec
    rw [find?_eq_filterHead]
  · unfold getClaudePathCli
    rw [find?_eq_filterHead]

lemma jsOrElse_untruthy (x : Option String) (d : String) (h : truthy x = false) :
    jsOrElse x d = d := by
  cases x with
  | none => rfl
  | some s =>
      unfold truthy at h
      simp only [decide_eq_false_iff_not, not_not] at h
      simp [jsOrElse, h]

/-- C1 counterexample: the empty string is not contained in the allowlist,
yet `pty:spawn` with `model: ""` skips validation entirely (the model
block is guarded by JS truthiness), spawns, and registers a session; and
with `shell: true` even a non-empty disallowed model is never validated —
the spawn proceeds and the session records that model. -/
theorem ptySpawn_empty_model_cex :
    (ALLOWED_MODELS.contains "" = false ∧
     (ptySpawn egPtyEnv ⟨none, some "", none, false⟩ []).1 = .ok "pty-1-1000" 42 ∧
     (ptySpawn egPtyEnv ⟨none, some "", none, false⟩ []).2.1 ≠ [] ∧
     (ptySpawn egPtyEnv ⟨none, some "", none, false⟩ []).2.2 ≠ []) ∧
    (ALLOWED_MODELS.contains "gpt-5" = false ∧
     (ptySpawn egPtyEnv ⟨none, some "gpt-5", none, true⟩ []).1 = .ok "pty-1-1000" 42 ∧
     (ptySpawn egPtyEnv ⟨none, some "gpt-5", none, true⟩ []).2.1 =
       [("pty-1-1000", ⟨"gpt-5", "/home/u", 1000⟩)]) := by
  exact ⟨⟨by decide, by decide, by decide, by decide⟩, ⟨by decide, by decide, by decide⟩⟩

/-- C1 (amended): for every non-empty model string not contained in the
allowlist, a non-interactive (`shell` untruthy) `pty:spawn` returns the
descriptive error with id null, leaves the registry unchanged, and
attempts no `pty.spawn`. -/
theorem ptySpawn_rejects_disallowed_model (E : PtyEnv) (opts : SpawnOptions)
    (reg : Registry) (m : String) (hm : opts.model = some m) (hne : m ≠ "")
    (hnotin : ALLOWED_MODELS.contains m = false) (hsh : opts.shell = false) :
    ptySpawn E opts reg = (.err (invalidModelMsg m), reg, []) := by
  have hnotin' : m ∉ ALLOWED_MODELS := by simpa using hnotin
  unfold ptySpawn ptySpawnCmd
  rw [hsh, hm]
  simp [hne, hnotin', Except.map]

theorem ptySpawn_rejects_disallowed_model_witness :
    ALLOWED_MODELS.contains "gpt-4" = false ∧
    ptySpawn egPtyEnv ⟨none, some "gpt-4", none, false⟩ [] =
      (.err (invalidModelMsg "gpt-4"), [], []) :=
  ⟨by decide,
   ptySpawn_rejects_disallowed_model egPtyEnv ⟨none, some "gpt-4", none, false⟩ []
     "gpt-4" rfl (by decide) (by decide) rfl⟩

/-- C10: with `model` absent or equal to the empty string (untruthy), no
allowlist validation happens at all: the command list is the launcher
followed by the caller args with no `--model` inserted, the spawn
proceeds, and the registered session records model `"default"`. -/
theorem ptySpawn_untruthy_model (E : PtyEnv) (opts : SpawnOptions) (reg : Registry)
    (hm : truthy opts.model = false) (hsh : opts.shell = false)
    (hs : E.spawnError = none)
    (hcp : E.claudePath ≠ "--model") (hma : "--model" ∉ opts.args.getD []) :
    ptySpawnCmd E opts = .ok (E.claudePath :: opts.args.getD []) ∧
    "--model" ∉ E.claudePath :: opts.args.getD [] ∧
    ptySpawn E opts reg =
      (.ok ("pty-" ++ toString (E.counter + 1) ++ "-" ++ toString E.now) E.pid,
       ("pty-" ++ toString (E.counter + 1) ++ "-" ++ toString E.now,
        { model := "default", cwd := jsOrElse opts.cwd E.homedir,
          startTime := E.now }) :: reg,
       [⟨E.shellBin,
         ["-l", "-c",
          joinSep " " ((E.claudePath :: opts.args.getD []).map shellEscapeStr)]⟩]) := by
  have hcmd : ptySpawnCmd E opts = .ok (E.claudePath :: opts.args.getD []) := by
    unfold ptySpawnCmd
    cases hmm : opts.model with
    | none => rfl
    | some m =>
        rw [hmm] at hm
        unfold truthy at hm
        simp only [decide_eq_false_iff_not, not_not] at hm
        simp [hm]
  refine ⟨hcmd, ?_, ?_⟩
  · intro hmem
    rcases List.mem_cons.mp hmem with h1 | h2
    · exact hcp h1.symm
    · exact hma h2
  · unfold ptySpawn
    rw [hsh, hcmd]
    simp [hs, jsOrElse_untruthy _ _ hm, Except.map]

theorem ptySpawn_untruthy_model_witness :
    truthy (some "") = false ∧
    ptySpawn egPtyEnv ⟨none, some "", some ["--help"], false⟩ [] =
      (.ok "pty-1-1000" 42,
       [("pty-1-1000", ⟨"default", "/home/u", 1000⟩)],
       [⟨"/bin/zsh", ["-l", "-c", "/usr/local/bin/claude --help"]⟩]) := by
  refine ⟨by decide, ?_⟩
  have h := (ptySpawn_untruthy_model egPtyEnv ⟨none, some "", some ["--help"], false⟩ []
    (by decide) rfl rfl (by decide) (by decide)).2.2
  rw [h]
  decide

/-- C9: `pty:write`, `pty:resize` and `pty:kill` on a session id absent
from the registry (in particular one whose session exited and was
removed) are complete no-ops: they throw nothing, change no registry
entry, and touch no process. -/
theorem pty_ops_absent_id_noop (reg : Registry) (id : String) (data : String)
    (cols rows : Nat) (h : regGet reg id = none) :
    ptyWrite reg id data = (reg, []) ∧
    ptyResize reg id cols rows = (reg, []) ∧
    ptyKill reg id = (reg, []) := by
  unfold ptyWrite ptyResize ptyKill
  simp [h]

theorem pty_ops_absent_id_noop_witness :
    regGet [("pty-1-1000", ⟨"default", "/home/u", 1000⟩)] "pty-2-2001" = none ∧
    ptyKill [("pty-1-1000", ⟨"default", "/home/u", 1000⟩)] "pty-2-2001" =
      ([("pty-1-1000", ⟨"default", "/home/u", 1000⟩)], []) :=
  ⟨by decide,
   (pty_ops_absent_id_noop [("pty-1-1000", ⟨"default", "/home/u", 1000⟩)]
      "pty-2-2001" "x" 80 30 (by decide)).2.2⟩

/-- C5: `spawnClaude` and `pty:spawn` default a missing cwd to the home
directory, but `cli:start-session` defaults it to the host process's own
working directory: with process cwd `/` (a packaged app) and home
`/home/u`, the recorded session cwd is `/`, not the home directory —
contradicting the source's own comment at the `spawnClaude` default
("NEVER use process.cwd()"). -/
theorem startSessionCwd_uses_processCwd :
    spawnClaudeCwd none "/home/u" = "/home/u" ∧
    ptySpawnCwd none "/home/u" = "/home/u" ∧
    startSessionCwd none "/" = "/" ∧
    startSessionCwd none "/" ≠ "/home/u" := by
  refine ⟨rfl, rfl, rfl, by decide⟩

lemma empty_append_str (s : String) : "" ++ s = s := rfl

lemma runSpawn_timeout_general (t : Nat) (pre rest : List ProcEvent) :
    ∀ (so se : String), (∀ e ∈ pre, e.isChunk = true) →
    runSpawn t so se (pre ++ .timeoutFire :: rest) =
      some ({ code := some (-1), stdout := so ++ collectOut pre,
              stderr := if se ++ collectErr pre = "" then timeoutMsg t
                        else se ++ collectErr pre },
            some .sigterm) := by
  induction pre with
  | nil =>
      intro so se _
      simp [runSpawn, collectOut, collectErr]
  | cons e pre' ih =>
      intro so se h
      have h' : ∀ x ∈ pre', x.isChunk = true :=
        fun x hx => h x (List.mem_cons_of_mem _ hx)
      cases e with
      | out d =>
          simp only [List.cons_append]
          rw [runSpawn, ih (so ++ d) se h']
          simp [collectOut, collectErr, String.append_assoc]
      | err d =>
          simp only [List.cons_append]
          rw [runSpawn, ih so (se ++ d) h']
          simp [collectOut, collectErr, String.append_assoc]
      | close c =>
          exact absurd (h _ (List.mem_cons_self _ _)) (by simp [ProcEvent.isChunk])
      | procError msg =>
          exact absurd (h _ (List.mem_cons_self _ _)) (by simp [ProcEvent.isChunk])
      | timeoutFire =>
          exact absurd (h _ (List.mem_cons_self _ _)) (by simp [ProcEvent.isChunk])

/-- C4: when the timeout timer fires before the process closes, the
one-shot execution resolves with exit code -1, keeps all stdout collected
so far, returns the collected stderr — or, when that is empty, the
synthesized timeout message — and the process is sent SIGTERM. -/
theorem spawnClaude_timeout (t : Nat) (pre rest : List ProcEvent)
    (h : ∀ e ∈ pre, e.isChunk = true) :
    runSpawn t "" "" (pre ++ .timeoutFire :: rest) =
      some ({ code := some (-1), stdout := collectOut pre,
              stderr := if collectErr pre = "" then timeoutMsg t else collectErr pre },
            some .sigterm) := by
  have hg := runSpawn_timeout_general t pre rest "" "" h
  simpa [empty_append_str] using hg

theorem spawnClaude_timeout_witness :
    (∀ e ∈ [ProcEvent.out "partial"], e.isChunk = true) ∧
    runSpawn 60000 "" "" ([ProcEvent.out "partial"] ++ ProcEvent.timeoutFire :: []) =
      some ({ code := some (-1), stdout := "partial", stderr := "Timeout after 60s" },
            some .sigterm) := by
  refine ⟨by decide, ?_⟩
  have h := spawnClaude_timeout 60000 [ProcEvent.out "partial"] [] (by decide)
  rw [h]
  decide

lemma foldl_preserve {α β : Type} (Q : β → Prop) (f : β → α → β) (l : List α) (b : β)
    (hb : Q b) (hf : ∀ b x, Q b → Q (f b x)) : Q (List.foldl f b l) := by
  induction l generalizing b with
  | nil => exact hb
  | cons x rest ih => exact ih _ (hf _ _ hb)

lemma scan_inv (P : ScanParams) (loc : ActivityLocation) :
    ∀ (n : Nat),
      (∀ (e : FSNode), sizeOf e ≤ n → ∀ (dirPath : String) (depth : Nat) (st : ScanState),
        (∀ f ∈ st.results, P.sinceMs ≤ f.modified) →
        ∀ f ∈ (scanNode P loc e dirPath depth st).results, P.sinceMs ≤ f.modified) ∧
      (∀ (l : List FSNode), sizeOf l ≤ n → ∀ (dirPath : String) (depth : Nat) (st : ScanState),
        (∀ f ∈ st.results, P.sinceMs ≤ f.modified) →
        ∀ f ∈ (scanKids P loc l dirPath depth st).results, P.sinceMs ≤ f.modified) := by
  intro n
  induction n with
  | zero =>
      constructor
      · intro e he
        cases e <;> simp at he
      · intro l hl dirPath depth st hst
        cases l with
        | nil => simpa [scanKids] using hst
        | cons e rest => simp at hl
  | succ n ih =>
      constructor
      · intro e he dirPath depth st hst
        rw [scanNode]
        by_cases hn : noiseName e.name = true
        · simp only [hn, if_true]; exact hst
        · simp only [hn, if_false]
          by_cases hseen : st.seen.contains (pj dirPath e.name) = true
          · simp only [hseen, if_true]; exact hst
          · simp only [hseen, if_false]
            cases e with
            | dir nm children =>
                by_cases hd : P.maxDepth < depth + 1
                · simp only [if_pos hd]; exact hst
                · simp only [if_neg hd]
                  have hch : sizeOf children ≤ n := by simp at he; omega
                  exact ih.2 children hch _ _ _ hst
            | file nm sz mt =>
                by_cases hm : P.sinceMs ≤ mt
                · simp only [if_pos hm]
                  intro f hf
                  rcases List.mem_append.mp hf with h1 | h2
                  · exact hst f h1
                  · simp at h2
                    subst h2
                    simpa [mkActivityFile] using hm
                · simp only [if_neg hm]; exact hst
      · intro l hl dirPath depth st hst
        cases l with
        | nil => simpa [scanKids] using hst
        | cons e rest =>
            rw [scanKids]
            have hrest : sizeOf rest ≤ n := by simp at hl; omega
            have he : sizeOf e ≤ n := by simp at hl; omega
            exact ih.2 rest hrest _ _ _ (ih.1 e he _ _ _ hst)

lemma scanKids_inv (P : ScanParams) (loc : ActivityLocation) (l : List FSNode)
    (dirPath : String) (depth : Nat) (st : ScanState)
    (hst : ∀ f ∈ st.results, P.sinceMs ≤ f.modified) :
    ∀ f ∈ (scanKids P loc l dirPath depth st).results, P.sinceMs ≤ f.modified :=
  (scan_inv P loc (sizeOf l)).2 l le_rfl dirPath depth st hst

lemma scanProjectStage_inv (P : ScanParams) (fs : ScanFS) (st : ScanState)
    (hst : ∀ f ∈ st.results, P.sinceMs ≤ f.modified) :
    ∀ f ∈ (scanProjectStage P fs st).results, P.sinceMs ≤ f.modified := by
  unfold scanProjectStage
  cases fs.projectChildren with
  | none => exact hst
  | some ch => exact scanKids_inv P _ ch _ 0 st hst

lemma scanScratchStage_inv (P : ScanParams) (fs : ScanFS) (st : ScanState)
    (hst : ∀ f ∈ st.results, P.sinceMs ≤ f.modified) :
    ∀ f ∈ (scanScratchStage P fs st).results, P.sinceMs ≤ f.modified := by
  unfold scanScratchStage
  apply foldl_preserve (fun st => ∀ f ∈ ScanState.results st, P.sinceMs ≤ f.modified)
    _ _ _ hst
  intro st' base hst'
  apply foldl_preserve (fun st => ∀ f ∈ ScanState.results st, P.sinceMs ≤ f.modified)
    _ _ _ hst'
  intro st'' e hst''
  by_cases hcl : jsStartsWith e.name "claude-" = true
  · simp only [hcl, if_true]
    cases e with
    | dir n ch => exact scanKids_inv P _ ch _ 0 st'' hst''
    | file n sz mt => exact hst''
  · simp only [hcl, if_false]
    exact hst''

lemma scanConfigStage_inv (P : ScanParams) (fs : ScanFS) (st : ScanState)
    (hst : ∀ f ∈ st.results, P.sinceMs ≤ f.modified) :
    ∀ f ∈ (scanConfigStage P fs st).results, P.sinceMs ≤ f.modified := by
  unfold scanConfigStage
  cases fs.claudeProjects with
  | none => exact hst
  | some ch => exact scanKids_inv P _ ch _ 0 st hst

lemma mem_insertByModified {x f : ActivityFile} {l : List ActivityFile} :
    x ∈ insertByModified f l ↔ x = f ∨ x ∈ l := by
  induction l with
  | nil => simp [insertByModified]
  | cons g rest ih =>
      unfold insertByModified
      by_cases hc : g.modified ≤ f.modified
      · simp only [if_pos hc, List.mem_cons]
      · simp only [if_neg hc, List.mem_cons, ih]
        tauto

lemma mem_sortByModifiedDesc {x : ActivityFile} {l : List ActivityFile} :
    x ∈ sortByModifiedDesc l ↔ x ∈ l := by
  induction l with
  | nil => simp [sortByModifiedDesc]
  | cons f rest ih => simp [sortByModifiedDesc, mem_insertByModified, ih]

lemma pairwise_insertByModified (f : ActivityFile) (l : List ActivityFile)
    (h : l.Pairwise (fun a b => b.modified ≤ a.modified)) :
    (insertByModified f l).Pairwise (fun a b => b.modified ≤ a.modified) := by
  induction l with
  | nil => simp [insertByModified]
  | cons g rest ih =>
      rw [List.pairwise_cons] at h
      unfold insertByModified
      by_cases hc : g.modified ≤ f.modified
      · simp only [if_pos hc]
        rw [List.pairwise_cons]
        refine ⟨?_, ?_⟩
        · intro b hb
          rcases List.mem_cons.mp hb with rfl | hb'
          · exact hc
          · exact le_trans (h.1 b hb') hc
        · rw [List.pairwise_cons]
          exact h
      · simp only [if_neg hc]
        rw [List.pairwise_cons]
        refine ⟨?_, ih h.2⟩
        intro b hb
        rcases mem_insertByModified.mp hb with rfl | hb'
        · exact le_of_not_le hc
        · exact h.1 b hb'

lemma pairwise_sortByModifiedDesc (l : List ActivityFile) :
    (sortByModifiedDesc l).Pairwise (fun a b => b.modified ≤ a.modified) := by
  induction l with
  | nil => simp [sortByModifiedDesc]
  | cons f rest ih => exact pairwise_insertByModified f _ ih

/-- C8: every entry returned by the activity scan has modification time at
least the given `sinceMs`, and the returned list is sorted by modification
time descending (newest first). -/
theorem scanActivity_filter_sorted (P : ScanParams) (fs : ScanFS) :
    (∀ f ∈ scanActivity P fs, P.sinceMs ≤ f.modified) ∧
    (scanActivity P fs).Pairwise (fun a b => b.modified ≤ a.modified) := by
  constructor
  · intro f hf
    unfold scanActivity at hf
    rw [mem_sortByModifiedDesc] at hf
    have h0 : ∀ f ∈ (⟨[], []⟩ : ScanState).results, P.sinceMs ≤ f.modified := by
      intro f hf'
      exact absurd hf' (List.not_mem_nil f)
    exact scanConfigStage_inv P fs _
      (scanScratchStage_inv P fs _ (scanProjectStage_inv P fs _ h0)) f hf
  · unfold scanActivity
    exact pairwise_sortByModifiedDesc _

end ClaudeCodeGui
